import Mathlib

/-!
Verification of the core computations of the ROC teaching visualization
(`src/script.js`): the Mulberry32 seeded RNG, the Box-Muller Gaussian
sampler, the dataset generator, the confusion-matrix metrics, and the
ROC threshold sweep.

Embedding conventions:
* JavaScript 32-bit integer arithmetic (`Math.imul`, `^`, `|`, `>>>`) is
  modelled on `ℕ` with explicit reduction `% 2 ^ 32` wherever the host
  coerces to 32 bits.
* Classifier scores produced by the Gaussian sampler are real numbers
  (`ℝ`): `Math.sqrt`, `Math.log`, `Math.cos` become `Real.sqrt`,
  `Real.log`, `Real.cos`.
* Divisions of integer counters (metrics and ROC coordinates) are exact
  in `ℚ`; the host's zero-division results NaN and Infinity are made
  explicit by the type `JsNum`.
-/

namespace Roc

/-- A data point: `{ value: float, label: 0|1 }` from `script.js`. -/
structure Sample where
  value : ℝ
  label : Fin 2

/-- One state step of `mulberry32`: `a += 0x6D2B79F5`, on the 32-bit state. -/
def nextState (s : ℕ) : ℕ := (s + 0x6D2B79F5) % 2 ^ 32

/-- The output mixing of `mulberry32` applied to the advanced state `t`:
`t = Math.imul(t ^ t >>> 15, t | 1); t ^= t + Math.imul(t ^ t >>> 7, t | 61);
return ((t ^ t >>> 14) >>> 0)` — each arithmetic step reduced mod `2 ^ 32`
as the host's 32-bit coercions do. -/
def mulberryMix (t : ℕ) : ℕ :=
  let t1 := ((t ^^^ (t >>> 15)) * (t ||| 1)) % 2 ^ 32
  let t2 := t1 ^^^ ((t1 + ((t1 ^^^ (t1 >>> 7)) * (t1 ||| 61)) % 2 ^ 32) % 2 ^ 32)
  t2 ^^^ (t2 >>> 14)

/-- One draw of the `mulberry32` generator from state `s`: the advanced
state and the mixed output divided by `4294967296 = 2 ^ 32`. -/
def draw (s : ℕ) : ℚ × ℕ :=
  (((mulberryMix (nextState s) : ℚ) / 2 ^ 32), nextState s)

/-- The `n`-th output of the generator seeded (or currently) at `seed`. -/
def rngStream (seed n : ℕ) : ℚ := (draw (nextState^[n] seed)).1

lemma nextState_lt (s : ℕ) : nextState s < 2 ^ 32 :=
  Nat.mod_lt _ (by norm_num)

lemma shiftRight_le_self (a k : ℕ) : a >>> k ≤ a := by
  simp only [Nat.shiftRight_eq_div_pow]
  exact Nat.div_le_self _ _

lemma mulberryMix_lt (t : ℕ) : mulberryMix t < 2 ^ 32 := by
  unfold mulberryMix
  have h1 : ((t ^^^ (t >>> 15)) * (t ||| 1)) % 2 ^ 32 < 2 ^ 32 :=
    Nat.mod_lt _ (by norm_num)
  set t1 := ((t ^^^ (t >>> 15)) * (t ||| 1)) % 2 ^ 32 with ht1
  have h2 : t1 ^^^ ((t1 + ((t1 ^^^ (t1 >>> 7)) * (t1 ||| 61)) % 2 ^ 32) % 2 ^ 32)
      < 2 ^ 32 :=
    Nat.xor_lt_two_pow h1 (Nat.mod_lt _ (by norm_num))
  set t2 := t1 ^^^ ((t1 + ((t1 ^^^ (t1 >>> 7)) * (t1 ||| 61)) % 2 ^ 32) % 2 ^ 32)
    with ht2
  exact Nat.xor_lt_two_pow h2 (lt_of_le_of_lt (shiftRight_le_self t2 14) h2)

lemma draw_fst_nonneg (s : ℕ) : 0 ≤ (draw s).1 := by
  unfold draw
  positivity

lemma draw_fst_lt_one (s : ℕ) : (draw s).1 < 1 := by
  unfold draw
  rw [div_lt_one (by positivity)]
  exact_mod_cast mulberryMix_lt (nextState s)

/-- C6: each RNG draw advances the 32-bit state by the odd increment
`0x6D2B79F5` modulo `2 ^ 32`, returns the Mulberry32-mixed state divided by
`2 ^ 32`, every output lies in `[0, 1)`, and equal seeds give equal output
streams. -/
theorem mulberry32_draw_spec (s : ℕ) (n : ℕ) :
    (draw s).2 = (s + 0x6D2B79F5) % 2 ^ 32 ∧
    (draw s).1 = (mulberryMix ((s + 0x6D2B79F5) % 2 ^ 32) : ℚ) / 2 ^ 32 ∧
    0 ≤ rngStream s n ∧ rngStream s n < 1 ∧
    ∀ s' : ℕ, s = s' → rngStream s n = rngStream s' n := by
  refine ⟨rfl, rfl, draw_fst_nonneg _, draw_fst_lt_one _, ?_⟩
  intro s' h
  rw [h]

/-- `randomGaussian(mean, stdev)` from `script.js`: Box-Muller from two
consecutive RNG draws, clipped to `[0, 1]`; returns the value and the RNG
state after the two draws. -/
noncomputable def randomGaussian (mean stdev : ℝ) (s : ℕ) : ℝ × ℕ :=
  let u : ℝ := 1 - ((draw s).1 : ℝ)
  let s1 := (draw s).2
  let v : ℝ := ((draw s1).1 : ℝ)
  let s2 := (draw s1).2
  let z := Real.sqrt (-2.0 * Real.log u) * Real.cos (2.0 * Real.pi * v)
  let val := z * stdev + mean
  (max 0 (min 1 val), s2)

/-- C5: the sampler consumes exactly two draws (`u` then `v`), its final
state is the twice-advanced input state, and its output is the clamp to
`[0, 1]` of `sqrt(-2 ln(1-u)) * cos(2 π v) * stdev + mean`. -/
theorem randomGaussian_spec (mean stdev : ℝ) (s : ℕ) :
    (randomGaussian mean stdev s).2 = nextState (nextState s) ∧
    (randomGaussian mean stdev s).1 =
      max 0 (min 1
        (Real.sqrt (-2 * Real.log (1 - ((draw s).1 : ℝ))) *
          Real.cos (2 * Real.pi * ((draw (nextState s)).1 : ℝ)) * stdev + mean)) ∧
    0 ≤ (randomGaussian mean stdev s).1 ∧ (randomGaussian mean stdev s).1 ≤ 1 := by
  refine ⟨rfl, by norm_num [randomGaussian, draw], le_max_left _ _, ?_⟩
  exact max_le (by norm_num) (min_le_left _ _)

/-- The constant `POS_RATIO = 0.5` of `script.js`. -/
def POS_RATIO : ℚ := 0.5

/-- One generation loop of `generateData`: draw `n` Gaussian samples with the
given mean/stdev, all tagged with label `lab`, threading the RNG state. -/
noncomputable def sampleLoop : ℕ → ℝ → ℝ → Fin 2 → ℕ → List Sample × ℕ
  | 0, _, _, _, s => ([], s)
  | Nat.succ n, mean, stdev, lab, s =>
      let r := randomGaussian mean stdev s
      let rest := sampleLoop n mean stdev lab r.2
      (⟨r.1, lab⟩ :: rest.1, rest.2)

/-- `generateData()` from `script.js`, with the positive ratio lifted from
the constant `POS_RATIO` to a parameter: reseeds the RNG to `88675123`,
draws `floor(points * ratio)` positives from the high-mean Gaussian, then
the remaining negatives from the low-mean Gaussian.  Returns the dataset
and the final RNG state (the value left in the global `rng`). -/
noncomputable def generateData (ratio : ℚ) (points : ℕ) (sep : ℝ) : List Sample × ℕ :=
  let numPos := (⌊(points : ℚ) * ratio⌋).toNat
  let numNeg := points - numPos
  let sigma : ℝ := 0.12
  let center : ℝ := 0.5
  let offset : ℝ := sep * sigma / 2
  let meanPos : ℝ := min 0.95 (center + offset)
  let meanNeg : ℝ := max 0.05 (center - offset)
  let pos := sampleLoop numPos meanPos sigma 1 88675123
  let neg := sampleLoop numNeg meanNeg sigma 0 pos.2
  (pos.1 ++ neg.1, neg.2)

/-- `generateData()` as a transformer of the global RNG state: the incoming
state is discarded because the source reseeds `rng = mulberry32(88675123)`
at the top of the call. -/
noncomputable def generateDataS (ratio : ℚ) (points : ℕ) (sep : ℝ) :
    ℕ → List Sample × ℕ :=
  fun _rngState => generateData ratio points sep

/-- An operation touching the global RNG: a full `generateData()` call or
any other single draw from `rng`. -/
inductive Op where
  | genCall (ratio : ℚ) (points : ℕ) (sep : ℝ)
  | rawDraw

/-- Effect of one operation on the global RNG state. -/
noncomputable def runOp : Op → ℕ → ℕ
  | .genCall r n sep, _ => (generateData r n sep).2
  | .rawDraw, s => (draw s).2

/-- Global RNG state after a sequence of operations. -/
noncomputable def runOps (ops : List Op) (s : ℕ) : ℕ :=
  ops.foldl (fun st op => runOp op st) s

/-- The dataset a `generateData(ratio, points, sep)` call returns when issued
after an arbitrary operation history `ops` from initial RNG state `s`. -/
noncomputable def datasetAfter (ops : List Op) (s : ℕ) (ratio : ℚ) (points : ℕ)
    (sep : ℝ) : List Sample :=
  (generateDataS ratio points sep (runOps ops s)).1

/-- C3: two generation calls with equal parameters return element-wise equal
datasets no matter which operation histories and initial RNG states precede
them, because each call restarts from the fixed internal seed `88675123`. -/
theorem generateData_deterministic (ops₁ ops₂ : List Op) (s₁ s₂ : ℕ)
    (ratio : ℚ) (points : ℕ) (sep : ℝ) :
    datasetAfter ops₁ s₁ ratio points sep = datasetAfter ops₂ s₂ ratio points sep ∧
    datasetAfter ops₁ s₁ ratio points sep = (generateData ratio points sep).1 :=
  ⟨rfl, rfl⟩

lemma iterate_two_apply (s : ℕ) : nextState^[2] s = nextState (nextState s) := by
  rw [show (2 : ℕ) = 1 + 1 from rfl, Function.iterate_add_apply]
  simp

lemma randomGaussian_snd (mean stdev : ℝ) (s : ℕ) :
    (randomGaussian mean stdev s).2 = nextState (nextState s) := rfl

lemma sampleLoop_snd (n : ℕ) (mean stdev : ℝ) (lab : Fin 2) (s : ℕ) :
    (sampleLoop n mean stdev lab s).2 = nextState^[2 * n] s := by
  induction n generalizing s with
  | zero => simp [sampleLoop]
  | succ n ih =>
      simp only [sampleLoop, ih, randomGaussian_snd]
      rw [show 2 * (n + 1) = 2 * n + 2 by ring, Function.iterate_add_apply,
        iterate_two_apply]

lemma sampleLoop_fst (n : ℕ) (mean stdev : ℝ) (lab : Fin 2) (s : ℕ) :
    (sampleLoop n mean stdev lab s).1 =
      (List.range n).map
        (fun i => ⟨(randomGaussian mean stdev (nextState^[2 * i] s)).1, lab⟩) := by
  induction n generalizing s with
  | zero => simp [sampleLoop]
  | succ n ih =>
      rw [List.range_succ_eq_map]
      simp only [sampleLoop, ih, randomGaussian_snd, List.map_cons, List.map_map]
      refine congrArg₂ _ (by simp) ?_
      apply List.map_congr_left
      intro i _
      simp only [Function.comp_apply]
      have hstep : nextState^[2 * Nat.succ i] s
          = nextState^[2 * i] (nextState (nextState s)) := by
        rw [show 2 * Nat.succ i = 2 * i + 2 by omega, Function.iterate_add_apply,
          iterate_two_apply]
      rw [hstep]

lemma sampleLoop_length (n : ℕ) (mean stdev : ℝ) (lab : Fin 2) (s : ℕ) :
    (sampleLoop n mean stdev lab s).1.length = n := by
  rw [sampleLoop_fst]
  simp

lemma sampleLoop_label (n : ℕ) (mean stdev : ℝ) (lab : Fin 2) (s : ℕ) :
    ∀ p ∈ (sampleLoop n mean stdev lab s).1, p.label = lab := by
  rw [sampleLoop_fst]
  intro p hp
  rcases List.mem_map.mp hp with ⟨i, _, rfl⟩
  rfl

lemma randomGaussian_fst_nonneg (mean stdev : ℝ) (s : ℕ) :
    0 ≤ (randomGaussian mean stdev s).1 :=
  le_max_left _ _

lemma randomGaussian_fst_le_one (mean stdev : ℝ) (s : ℕ) :
    (randomGaussian mean stdev s).1 ≤ 1 :=
  max_le zero_le_one (min_le_left _ _)

lemma sampleLoop_value (n : ℕ) (mean stdev : ℝ) (lab : Fin 2) (s : ℕ) :
    ∀ p ∈ (sampleLoop n mean stdev lab s).1, 0 ≤ p.value ∧ p.value ≤ 1 := by
  rw [sampleLoop_fst]
  intro p hp
  rcases List.mem_map.mp hp with ⟨i, _, rfl⟩
  exact ⟨randomGaussian_fst_nonneg _ _ _, randomGaussian_fst_le_one _ _ _⟩

lemma generateData_split (ratio : ℚ) (points : ℕ) (sep : ℝ) :
    (generateData ratio points sep).1
      = (sampleLoop ((⌊(points : ℚ) * ratio⌋).toNat)
          (min 0.95 (0.5 + sep * 0.12 / 2)) 0.12 1 88675123).1
        ++ (sampleLoop (points - (⌊(points : ℚ) * ratio⌋).toNat)
            (max 0.05 (0.5 - sep * 0.12 / 2)) 0.12 0
            (sampleLoop ((⌊(points : ℚ) * ratio⌋).toNat)
              (min 0.95 (0.5 + sep * 0.12 / 2)) 0.12 1 88675123).2).1 := rfl

lemma numPos_le_points (ratio : ℚ) (points : ℕ) (hr1 : ratio ≤ 1) :
    (⌊(points : ℚ) * ratio⌋).toNat ≤ points := by
  rw [Int.toNat_le]
  calc ⌊(points : ℚ) * ratio⌋ ≤ ⌊(points : ℚ)⌋ :=
        Int.floor_le_floor (mul_le_of_le_one_right (by positivity) hr1)
    _ = (points : ℤ) := Int.floor_natCast points

/-- C4: for `pointCount ≥ 1`, `0 < positiveRatio ≤ 1` and `separation ≥ 0`,
the generated dataset has length `pointCount`; it is exactly
`floor(pointCount * positiveRatio)` label-1 samples drawn from the Gaussian
with mean `min(0.95, 0.5 + separation*0.12/2)` and sigma `0.12`, followed by
the remaining label-0 samples drawn from the Gaussian with mean
`max(0.05, 0.5 - separation*0.12/2)`, in that fixed order with no
shuffling. -/
theorem generateData_structure (ratio : ℚ) (points : ℕ) (sep : ℝ) (numPos : ℕ)
    (hpts : 1 ≤ points) (hr0 : 0 < ratio) (hr1 : ratio ≤ 1) (hsep : 0 ≤ sep)
    (hnp : numPos = (⌊(points : ℚ) * ratio⌋).toNat) :
    (generateData ratio points sep).1.length = points ∧
    ((generateData ratio points sep).1.filter
      (fun p => decide (p.label = 1))).length = numPos ∧
    ((generateData ratio points sep).1.filter
      (fun p => decide (p.label = 0))).length = points - numPos ∧
    (generateData ratio points sep).1 =
      ((List.range numPos).map fun i =>
        ⟨(randomGaussian (min 0.95 (0.5 + sep * 0.12 / 2)) 0.12
            (nextState^[2 * i] 88675123)).1, 1⟩)
      ++ ((List.range (points - numPos)).map fun i =>
        ⟨(randomGaussian (max 0.05 (0.5 - sep * 0.12 / 2)) 0.12
            (nextState^[2 * numPos + 2 * i] 88675123)).1, 0⟩) := by
  subst hnp
  have hle := numPos_le_points ratio points hr1
  have hmain : (generateData ratio points sep).1 =
      ((List.range ((⌊(points : ℚ) * ratio⌋).toNat)).map fun i =>
        ⟨(randomGaussian (min 0.95 (0.5 + sep * 0.12 / 2)) 0.12
            (nextState^[2 * i] 88675123)).1, 1⟩)
      ++ ((List.range (points - (⌊(points : ℚ) * ratio⌋).toNat)).map fun i =>
        ⟨(randomGaussian (max 0.05 (0.5 - sep * 0.12 / 2)) 0.12
            (nextState^[2 * (⌊(points : ℚ) * ratio⌋).toNat + 2 * i] 88675123)).1,
          0⟩) := by
    rw [generateData_split, sampleLoop_snd, sampleLoop_fst, sampleLoop_fst]
    refine congrArg₂ _ rfl ?_
    apply List.map_congr_left
    intro i _
    have hstep : nextState^[2 * (⌊(points : ℚ) * ratio⌋).toNat + 2 * i] 88675123
        = nextState^[2 * i] (nextState^[2 * (⌊(points : ℚ) * ratio⌋).toNat] 88675123) := by
      rw [show 2 * (⌊(points : ℚ) * ratio⌋).toNat + 2 * i
            = 2 * i + 2 * (⌊(points : ℚ) * ratio⌋).toNat by omega,
        Function.iterate_add_apply]
    rw [hstep]
  refine ⟨?_, ?_, ?_, hmain⟩
  · rw [hmain]
    simp only [List.length_append, List.length_map, List.length_range]
    omega
  · rw [hmain, List.filter_append]
    rw [List.filter_eq_self.mpr ?_, List.filter_eq_nil_iff.mpr ?_]
    · simp
    · intro p hp
      rcases List.mem_map.mp hp with ⟨i, _, rfl⟩
      simp
    · intro p hp
      rcases List.mem_map.mp hp with ⟨i, _, rfl⟩
      simp
  · rw [hmain, List.filter_append]
    rw [List.filter_eq_nil_iff.mpr ?_, List.filter_eq_self.mpr ?_]
    · simp
    · intro p hp
      rcases List.mem_map.mp hp with ⟨i, _, rfl⟩
      simp
    · intro p hp
      rcases List.mem_map.mp hp with ⟨i, _, rfl⟩
      simp

/-- Witness for C4 at `ratio = 1`, `points = 1`, `sep = 0`. -/
theorem generateData_structure_witness :
    (generateData 1 1 0).1.length = 1 := by
  have h := generateData_structure 1 1 0 1 (le_refl 1) one_pos (le_refl 1)
    (le_refl 0) (by simp)
  exact h.1

/-- C7: for `pointCount ≥ 1` and `separation ≥ 0` every value in the
generated dataset lies in the closed interval `[0, 1]`, and the logarithm
argument `1 - rng()` of the sampler is strictly positive for every RNG
output, so the clamp is never applied to an undefined number. -/
theorem generateData_range (ratio : ℚ) (points : ℕ) (sep : ℝ)
    (hpts : 1 ≤ points) (hsep : 0 ≤ sep) :
    (∀ p ∈ (generateData ratio points sep).1, 0 ≤ p.value ∧ p.value ≤ 1) ∧
    ∀ s : ℕ, 0 < 1 - ((draw s).1 : ℝ) := by
  constructor
  · intro p hp
    rw [generateData_split] at hp
    rcases List.mem_append.mp hp with h | h
    · exact sampleLoop_value _ _ _ _ _ p h
    · exact sampleLoop_value _ _ _ _ _ p h
  · intro s
    have h := draw_fst_lt_one s
    have : ((draw s).1 : ℝ) < 1 := by exact_mod_cast h
    linarith

/-- Witness for C7 at `ratio = POS_RATIO`, `points = 1`, `sep = 0`. -/
theorem generateData_range_witness :
    (∀ p ∈ (generateData POS_RATIO 1 0).1, 0 ≤ p.value ∧ p.value ≤ 1) ∧
    ∀ s : ℕ, 0 < 1 - ((draw s).1 : ℝ) :=
  generateData_range POS_RATIO 1 0 (le_refl 1) (le_refl 0)

/-- A JavaScript number as produced by dividing one non-negative integer
counter by another: a finite rational, or the host's `NaN` (`0/0`), or
`Infinity` (`k/0` with `k > 0`). -/
inductive JsNum where
  | nan
  | inf
  | fin (q : ℚ)
deriving DecidableEq

/-- Division of two non-negative integer counters with JavaScript
zero-division semantics. -/
def jsDivN (a b : ℕ) : JsNum :=
  if b = 0 then (if a = 0 then .nan else .inf) else .fin ((a : ℚ) / b)

/-- The predicate `predictedPos = p.value >= state.threshold` of
`calculateMetrics`. -/
def predictedPos (threshold : ℝ) (p : Sample) : Prop := p.value ≥ threshold

noncomputable instance (threshold : ℝ) (p : Sample) :
    Decidable (predictedPos threshold p) :=
  Real.decidableLE threshold p.value

/-- The `tp/fp/fn/tn` accumulation loop of `calculateMetrics`, one field per
component, in the order `(tp, fp, fn, tn)`. -/
noncomputable def confusion (threshold : ℝ) : List Sample → ℕ × ℕ × ℕ × ℕ
  | [] => (0, 0, 0, 0)
  | p :: rest =>
      let c := confusion threshold rest
      if p.label = 1 then
        if predictedPos threshold p then (c.1 + 1, c.2.1, c.2.2.1, c.2.2.2)
        else (c.1, c.2.1, c.2.2.1 + 1, c.2.2.2)
      else
        if predictedPos threshold p then (c.1, c.2.1 + 1, c.2.2.1, c.2.2.2)
        else (c.1, c.2.1, c.2.2.1, c.2.2.2 + 1)

/-- The record `state.metrics` built by `calculateMetrics`. -/
structure MetricsResult where
  tp : ℕ
  fp : ℕ
  fn : ℕ
  tn : ℕ
  accuracy : JsNum
  precision : ℚ
  «recall» : ℚ
  fpr : ℚ
  f1 : ℚ

/-- `precision = (tp + fp) > 0 ? tp / (tp + fp) : 0`. -/
def precisionOf (tp fp : ℕ) : ℚ := if 0 < tp + fp then (tp : ℚ) / (tp + fp) else 0

/-- `recall = (tp + fn) > 0 ? tp / (tp + fn) : 0`. -/
def recallOf (tp fn : ℕ) : ℚ := if 0 < tp + fn then (tp : ℚ) / (tp + fn) else 0

/-- `fpr = (fp + tn) > 0 ? fp / (fp + tn) : 0`. -/
def fprOf (fp tn : ℕ) : ℚ := if 0 < fp + tn then (fp : ℚ) / (fp + tn) else 0

/-- `f1 = (precision + recall) > 0 ? 2*(precision*recall)/(precision+recall) : 0`. -/
def f1Of (precision «recall» : ℚ) : ℚ :=
  if 0 < precision + «recall» then 2 * (precision * «recall») / (precision + «recall»)
  else 0

/-- `calculateMetrics()` from `script.js` on a dataset and threshold:
confusion counts, then `accuracy = (tp+tn)/total` (unguarded division) and
the four guarded derived metrics. -/
noncomputable def calculateMetrics (data : List Sample) (threshold : ℝ) :
    MetricsResult :=
  let c := confusion threshold data
  let tp := c.1
  let fp := c.2.1
  let fn := c.2.2.1
  let tn := c.2.2.2
  let total := data.length
  let accuracy := jsDivN (tp + tn) total
  let precision := precisionOf tp fp
  let «recall» := recallOf tp fn
  let fpr := fprOf fp tn
  let f1 := f1Of precision «recall»
  ⟨tp, fp, fn, tn, accuracy, precision, «recall», fpr, f1⟩

lemma confusion_filter (threshold : ℝ) (data : List Sample) :
    (confusion threshold data).1
        = (data.filter fun p => decide (p.label = 1) &&
            decide (predictedPos threshold p)).length ∧
    (confusion threshold data).2.1
        = (data.filter fun p => decide (¬p.label = 1) &&
            decide (predictedPos threshold p)).length ∧
    (confusion threshold data).2.2.1
        = (data.filter fun p => decide (p.label = 1) &&
            decide (¬predictedPos threshold p)).length ∧
    (confusion threshold data).2.2.2
        = (data.filter fun p => decide (¬p.label = 1) &&
            decide (¬predictedPos threshold p)).length := by
  induction data with
  | nil => simp [confusion]
  | cons p rest ih =>
      by_cases h1 : p.label = 1 <;> by_cases h2 : predictedPos threshold p <;>
        simp [confusion, h1, h2, List.filter_cons, ih.1, ih.2.1, ih.2.2.1, ih.2.2.2]

lemma confusion_total (threshold : ℝ) (data : List Sample) :
    (confusion threshold data).1 + (confusion threshold data).2.1
      + (confusion threshold data).2.2.1 + (confusion threshold data).2.2.2
      = data.length := by
  induction data with
  | nil => simp [confusion]
  | cons p rest ih =>
      by_cases h1 : p.label = 1 <;> by_cases h2 : predictedPos threshold p <;>
        simp [confusion, h1, h2] <;> omega

/-- C2: a sample is predicted positive by `calculateMetrics` exactly when its
value is `≥` the threshold (so a value equal to the threshold is classified
positive), and the four confusion counters always sum to the dataset
length. -/
theorem calculateMetrics_classification (data : List Sample) (threshold : ℝ) :
    (∀ p : Sample, predictedPos threshold p ↔ threshold ≤ p.value) ∧
    (∀ p : Sample, p.value = threshold → predictedPos threshold p) ∧
    (calculateMetrics data threshold).tp + (calculateMetrics data threshold).fp
      + (calculateMetrics data threshold).fn
      + (calculateMetrics data threshold).tn = data.length ∧
    (calculateMetrics data threshold).tp
        = (data.filter fun p => decide (p.label = 1) &&
            decide (predictedPos threshold p)).length ∧
    (calculateMetrics data threshold).fp
        = (data.filter fun p => decide (¬p.label = 1) &&
            decide (predictedPos threshold p)).length := by
  refine ⟨fun p => Iff.rfl, fun p h => le_of_eq h.symm, ?_, ?_, ?_⟩
  · exact confusion_total threshold data
  · exact (confusion_filter threshold data).1
  · exact (confusion_filter threshold data).2.1

/-- C8: each guarded derived metric is `0` whenever its denominator is zero,
and all metrics are total (always defined rational values). -/
theorem calculateMetrics_zero_denominators (data : List Sample) (threshold : ℝ) :
    ((calculateMetrics data threshold).tp + (calculateMetrics data threshold).fp = 0 →
      (calculateMetrics data threshold).precision = 0) ∧
    ((calculateMetrics data threshold).tp + (calculateMetrics data threshold).fn = 0 →
      (calculateMetrics data threshold).recall = 0) ∧
    ((calculateMetrics data threshold).fp + (calculateMetrics data threshold).tn = 0 →
      (calculateMetrics data threshold).fpr = 0) ∧
    ((calculateMetrics data threshold).precision
        + (calculateMetrics data threshold).recall = 0 →
      (calculateMetrics data threshold).f1 = 0) := by
  refine ⟨fun h => ?_, fun h => ?_, fun h => ?_, fun h => ?_⟩
  · show precisionOf _ _ = 0
    have h' : (confusion threshold data).1 + (confusion threshold data).2.1 = 0 := h
    simp only [precisionOf]
    rw [if_neg (by omega)]
  · show recallOf _ _ = 0
    have h' : (confusion threshold data).1 + (confusion threshold data).2.2.1 = 0 := h
    simp only [recallOf]
    rw [if_neg (by omega)]
  · show fprOf _ _ = 0
    have h' : (confusion threshold data).2.1 + (confusion threshold data).2.2.2 = 0 := h
    simp only [fprOf]
    rw [if_neg (by omega)]
  · show f1Of _ _ = 0
    have h' : (calculateMetrics data threshold).precision
        + (calculateMetrics data threshold).recall = 0 := h
    simp only [f1Of]
    rw [if_neg]
    rw [show precisionOf (confusion threshold data).1 (confusion threshold data).2.1
          + recallOf (confusion threshold data).1 (confusion threshold data).2.2.1
        = (calculateMetrics data threshold).precision
          + (calculateMetrics data threshold).recall from rfl, h']
    exact lt_irrefl 0

/-- C10: on the empty dataset `calculateMetrics` yields an all-zero
confusion matrix, `accuracy = NaN` (the unguarded `0/0`), and zero for the
four guarded metrics. -/
theorem calculateMetrics_empty (threshold : ℝ) :
    calculateMetrics [] threshold = ⟨0, 0, 0, 0, JsNum.nan, 0, 0, 0, 0⟩ := by
  show MetricsResult.mk _ _ _ _ _ _ _ _ _ = _
  norm_num [confusion, jsDivN, precisionOf, recallOf, fprOf, f1Of]

/-- The descending sort `[...state.data].sort((a, b) => b.value - a.value)`
of `drawROC`. -/
noncomputable def sortDesc (data : List Sample) : List Sample :=
  data.mergeSort (fun a b => decide (b.value ≤ a.value))

/-- `totalPos = state.data.filter(d => d.label === 1).length`. -/
def totalPos (data : List Sample) : ℕ :=
  (data.filter fun d => decide (d.label = 1)).length

/-- `totalNeg = state.data.filter(d => d.label === 0).length`. -/
def totalNeg (data : List Sample) : ℕ :=
  (data.filter fun d => decide (d.label = 0)).length

/-- The `(fp, tp)` counter pairs emitted by the ROC sweep loop, one pair
after processing each sample: `tp++` on a label-1 sample, `fp++`
otherwise. -/
def rocCounters : List Sample → ℕ × ℕ → List (ℕ × ℕ)
  | [], _ => []
  | p :: rest, c =>
      let c' := if p.label = 1 then (c.1, c.2 + 1) else (c.1 + 1, c.2)
      c' :: rocCounters rest c'

/-- The ROC point sequence of `drawROC()`: the initial `(0, 0)`, then after
each sample of the descending-sorted data the point
`(fp / totalNeg, tp / totalPos)` with JavaScript division semantics. -/
noncomputable def drawROC (data : List Sample) : List (JsNum × JsNum) :=
  (JsNum.fin 0, JsNum.fin 0) ::
    (rocCounters (sortDesc data) (0, 0)).map
      (fun c => (jsDivN c.1 (totalNeg data), jsDivN c.2 (totalPos data)))

lemma rocCounters_length (l : List Sample) (c : ℕ × ℕ) :
    (rocCounters l c).length = l.length := by
  induction l generalizing c with
  | nil => rfl
  | cons p rest ih => simp [rocCounters, ih]

lemma rocCounters_chain (l : List Sample) (c : ℕ × ℕ) :
    List.Chain'
      (fun a b => (b.1 = a.1 + 1 ∧ b.2 = a.2) ∨ (b.1 = a.1 ∧ b.2 = a.2 + 1))
      (c :: rocCounters l c) := by
  induction l generalizing c with
  | nil => simp [rocCounters]
  | cons p rest ih =>
      by_cases h : p.label = 1
      · rw [show rocCounters (p :: rest) c = (c.1, c.2 + 1) ::
            rocCounters rest (c.1, c.2 + 1) by simp [rocCounters, h]]
        exact List.Chain'.cons (Or.inr ⟨rfl, rfl⟩) (ih _)
      · rw [show rocCounters (p :: rest) c = (c.1 + 1, c.2) ::
            rocCounters rest (c.1 + 1, c.2) by simp [rocCounters, h]]
        exact List.Chain'.cons (Or.inl ⟨rfl, rfl⟩) (ih _)

lemma rocCounters_getLast (l : List Sample) (c : ℕ × ℕ) :
    (c :: rocCounters l c).getLast? =
      some (c.1 + (l.filter fun p => decide (¬p.label = 1)).length,
        c.2 + (l.filter fun p => decide (p.label = 1)).length) := by
  induction l generalizing c with
  | nil => simp [rocCounters]
  | cons p rest ih =>
      by_cases h : p.label = 1
      · rw [show rocCounters (p :: rest) c = (c.1, c.2 + 1) ::
            rocCounters rest (c.1, c.2 + 1) by simp [rocCounters, h],
          List.getLast?_cons_cons, ih]
        simp [List.filter_cons, h]
        omega
      · rw [show rocCounters (p :: rest) c = (c.1 + 1, c.2) ::
            rocCounters rest (c.1 + 1, c.2) by simp [rocCounters, h],
          List.getLast?_cons_cons, ih]
        simp [List.filter_cons, h]
        omega

lemma rocCounters_fst_const (l : List Sample) (c : ℕ × ℕ)
    (hall : ∀ p ∈ l, p.label = 1) :
    ∀ d ∈ rocCounters l c, d.1 = c.1 := by
  induction l generalizing c with
  | nil => simp [rocCounters]
  | cons p rest ih =>
      intro d hd
      have hp : p.label = 1 := hall p (List.mem_cons_self p rest)
      rw [show rocCounters (p :: rest) c = (c.1, c.2 + 1) ::
          rocCounters rest (c.1, c.2 + 1) by simp [rocCounters, hp]] at hd
      rcases List.mem_cons.mp hd with rfl | hd
      · rfl
      · exact ih (c.1, c.2 + 1) (fun q hq => hall q (List.mem_cons_of_mem p hq)) d hd

lemma jsDivN_of_pos (a b : ℕ) (hb : 0 < b) :
    jsDivN a b = JsNum.fin ((a : ℚ) / b) := by
  simp [jsDivN, Nat.pos_iff_ne_zero.mp hb]

lemma sortDesc_perm (data : List Sample) : (sortDesc data).Perm data :=
  List.mergeSort_perm data _

lemma totalNeg_eq_not_pos (data : List Sample) :
    totalNeg data = (data.filter fun p => decide (¬p.label = 1)).length := by
  unfold totalNeg
  congr 1
  apply List.filter_congr
  intro p _
  have h : ∀ x : Fin 2, (decide (x = 0)) = (decide (¬x = 1)) := by decide
  exact h p.label

lemma sortDesc_count_pos (data : List Sample) :
    ((sortDesc data).filter fun p => decide (p.label = 1)).length = totalPos data :=
  ((sortDesc_perm data).filter _).length_eq

lemma sortDesc_count_neg (data : List Sample) :
    ((sortDesc data).filter fun p => decide (¬p.label = 1)).length = totalNeg data := by
  rw [totalNeg_eq_not_pos]
  exact ((sortDesc_perm data).filter _).length_eq

/-- C1: on a dataset with both classes present the ROC point sequence is a
list of finite rational points of length `dataset length + 1`, starting at
`(0, 0)`, ending at `(1, 1)`, where each step adds `1/totalNeg` to the fpr
coordinate or `1/totalPos` to the tpr coordinate (never both), so both
coordinates are non-decreasing along the sequence. -/
theorem drawROC_spec (data : List Sample)
    (hP : 0 < totalPos data) (hN : 0 < totalNeg data) :
    ∃ pts : List (ℚ × ℚ),
      drawROC data = pts.map (fun p => (JsNum.fin p.1, JsNum.fin p.2)) ∧
      pts.length = data.length + 1 ∧
      pts.head? = some (0, 0) ∧
      pts.getLast? = some (1, 1) ∧
      List.Chain'
        (fun p q => (q.1 = p.1 + 1 / (totalNeg data : ℚ) ∧ q.2 = p.2) ∨
          (q.1 = p.1 ∧ q.2 = p.2 + 1 / (totalPos data : ℚ))) pts ∧
      List.Chain' (fun p q => p.1 ≤ q.1 ∧ p.2 ≤ q.2) pts := by
  have hPne : ((totalPos data : ℚ)) ≠ 0 := by positivity
  have hNne : ((totalNeg data : ℚ)) ≠ 0 := by positivity
  refine ⟨((0, 0) :: rocCounters (sortDesc data) (0, 0)).map
    (fun c => ((c.1 : ℚ) / totalNeg data, (c.2 : ℚ) / totalPos data)),
    ?_, ?_, ?_, ?_, ?_, ?_⟩
  · unfold drawROC
    simp only [List.map_cons, List.map_map]
    refine congrArg₂ _ (by norm_num) ?_
    apply List.map_congr_left
    intro c _
    simp only [Function.comp_apply]
    rw [jsDivN_of_pos _ _ hN, jsDivN_of_pos _ _ hP]
  · rw [List.length_map, List.length_cons, rocCounters_length]
    unfold sortDesc
    rw [List.length_mergeSort]
  · simp
  · rw [List.getLast?_map, rocCounters_getLast]
    simp only [Option.map_some', sortDesc_count_pos, sortDesc_count_neg, Nat.zero_add]
    rw [div_self hNne, div_self hPne]
  · rw [List.chain'_map]
    apply List.Chain'.imp ?_ (rocCounters_chain (sortDesc data) (0, 0))
    intro a b hab
    rcases hab with ⟨h1, h2⟩ | ⟨h1, h2⟩
    · left
      constructor
      · show ((b.1 : ℚ)) / (totalNeg data : ℚ) = _
        rw [h1]
        push_cast
        rw [add_div]
      · rw [h2]
    · right
      constructor
      · rw [h1]
      · show ((b.2 : ℚ)) / (totalPos data : ℚ) = _
        rw [h2]
        push_cast
        rw [add_div]
  · rw [List.chain'_map]
    apply List.Chain'.imp ?_ (rocCounters_chain (sortDesc data) (0, 0))
    intro a b hab
    have hfst : a.1 ≤ b.1 ∧ a.2 ≤ b.2 := by
      rcases hab with ⟨h1, h2⟩ | ⟨h1, h2⟩ <;> omega
    have hNQ : (0 : ℚ) < (totalNeg data : ℚ) := by exact_mod_cast hN
    have hPQ : (0 : ℚ) < (totalPos data : ℚ) := by exact_mod_cast hP
    constructor
    · exact (div_le_div_iff_of_pos_right hNQ).mpr (by exact_mod_cast hfst.1)
    · exact (div_le_div_iff_of_pos_right hPQ).mpr (by exact_mod_cast hfst.2)

/-- Witness for C1 at the two-sample dataset `[(1, label 1), (0, label 0)]`. -/
theorem drawROC_spec_witness :
    (drawROC [⟨(1 : ℝ), 1⟩, ⟨(0 : ℝ), 0⟩]).length = 3 ∧
    (drawROC [⟨(1 : ℝ), 1⟩, ⟨(0 : ℝ), 0⟩]).head? = some (JsNum.fin 0, JsNum.fin 0) := by
  obtain ⟨pts, h1, h2, h3, _, _, _⟩ :=
    drawROC_spec [⟨(1 : ℝ), 1⟩, ⟨(0 : ℝ), 0⟩] (by decide) (by decide)
  constructor
  · rw [h1, List.length_map, h2]
    rfl
  · rw [h1, List.head?_map, h3]
    rfl

/-- C9: on a non-empty dataset whose samples all carry label 1
(`totalNeg = 0`), the ROC sweep still returns a full point sequence — the
initial `(0, 0)` and, at every later point, a NaN fpr coordinate (the host's
`0/0`) paired with a well-defined finite tpr coordinate. -/
theorem drawROC_all_positive (data : List Sample) (hne : data ≠ [])
    (hall : ∀ p ∈ data, p.label = 1) :
    (drawROC data).head? = some (JsNum.fin 0, JsNum.fin 0) ∧
    (drawROC data).length = data.length + 1 ∧
    ∀ q ∈ (drawROC data).tail, q.1 = JsNum.nan ∧ ∃ y : ℚ, q.2 = JsNum.fin y := by
  have hsorted : ∀ p ∈ sortDesc data, p.label = 1 := by
    intro p hp
    exact hall p ((sortDesc_perm data).mem_iff.mp hp)
  have hN : totalNeg data = 0 := by
    unfold totalNeg
    rw [List.filter_eq_nil_iff.mpr ?_]
    · rfl
    · intro p hp
      have h1 := hall p hp
      simp [h1]
  have hP : totalPos data ≠ 0 := by
    unfold totalPos
    rw [List.filter_eq_self.mpr ?_]
    · simp [hne]
    · intro p hp
      simp [hall p hp]
  refine ⟨rfl, ?_, ?_⟩
  · unfold drawROC
    rw [List.length_cons, List.length_map, rocCounters_length]
    unfold sortDesc
    rw [List.length_mergeSort]
  · intro q hq
    unfold drawROC at hq
    rw [List.tail_cons] at hq
    rcases List.mem_map.mp hq with ⟨c, hc, rfl⟩
    have hc1 : c.1 = 0 := rocCounters_fst_const (sortDesc data) (0, 0) hsorted c hc
    constructor
    · rw [hc1, hN]
      rfl
    · exact ⟨(c.2 : ℚ) / totalPos data, jsDivN_of_pos _ _ (Nat.pos_of_ne_zero hP)⟩

/-- Witness for C9 at the all-positive singleton dataset `[(0.5, label 1)]`. -/
theorem drawROC_all_positive_witness :
    (drawROC [⟨(0.5 : ℝ), 1⟩]).length = 2 ∧
    ∀ q ∈ (drawROC [⟨(0.5 : ℝ), 1⟩]).tail,
      q.1 = JsNum.nan ∧ ∃ y : ℚ, q.2 = JsNum.fin y := by
  obtain ⟨_, h2, h3⟩ :=
    drawROC_all_positive [⟨(0.5 : ℝ), 1⟩] (by simp) (by simp)
  exact ⟨h2, h3⟩

end Roc
